import Mathlib

/-!
Verification development for the Parallel-Copy-Tool repository
(`src/copy.py` and `src/copy-GPU-macOS.py`).

The engine is shallowly embedded: file contents are `List Nat` (one entry
per byte), paths are `List String` (one entry per component), the shared
worker state is an explicit record, and the worker/monitor loops are step
functions on that record.  Python's `queue.Queue` is modelled with its
item list together with its `unfinished_tasks` counter, which is the pair
that `put` / `task_done` / `join` actually operate on.
-/

/-- Buffer size used by `copy_worker`: `buffer_size = 4 * 1024 * 1024` (4 MiB). -/
def CHUNK_SIZE : Nat := 4 * 1024 * 1024

/-- One mebibyte; the status string divides byte counts by this (`// (1024 * 1024)`). -/
def MB : Nat := 1024 * 1024

/-- Events emitted while `copy.py`'s `copy_worker` processes a single task
(lines 57-88), in program order. -/
inductive EvT where
  | makedirs
  | openSrc
  | openDst
  | writeChunk (len : Nat)
  | setStatus (copiedMB totalMB : Nat)
  | copystat
  | incTotalBytes (n : Nat)
  | incCompleted
  | progressPut
  | setStatusIdle
  | taskDone
deriving DecidableEq

/-- Output of the inner `while` read/write loop of `copy_worker`
(copy.py lines 66-75): the bytes written to the destination, the successive
`thread_status` updates (copied MiB, total MiB), the emitted events and the
final value of `copied_size`. -/
structure ChunkLoopOut where
  written : List Nat
  statuses : List (Nat × Nat)
  events : List EvT
  finalCopied : Nat
deriving DecidableEq

/-- Fuel-indexed embedding of the inner read/write loop: each iteration reads
`src.read(buffer_size)` (here `pending.take CHUNK_SIZE`), stops on an empty
read, writes the chunk, adds its length to `copied_size` and updates the
worker's status line with `copied_size // MB` and `total_size // MB`.
The fuel argument only makes the recursion structural; it is instantiated
with `pending.length`, which the loop never exhausts since every iteration
consumes at least one byte. -/
def chunkLoopF (total : Nat) : Nat → List Nat → Nat → ChunkLoopOut
  | _, [], copied => ⟨[], [], [], copied⟩
  | 0, _ :: _, copied => ⟨[], [], [], copied⟩
  | fuel + 1, x :: xs, copied =>
      let pending := x :: xs
      let chunk := pending.take CHUNK_SIZE
      let rest := chunkLoopF total fuel (pending.drop CHUNK_SIZE) (copied + chunk.length)
      ⟨chunk ++ rest.written,
       ((copied + chunk.length) / MB, total / MB) :: rest.statuses,
       .writeChunk chunk.length :: .setStatus ((copied + chunk.length) / MB) (total / MB) :: rest.events,
       rest.finalCopied⟩

/-- The inner read/write loop of `copy_worker`, at fuel `pending.length`. -/
def chunkLoop (total : Nat) (pending : List Nat) (copied : Nat) : ChunkLoopOut :=
  chunkLoopF total pending.length pending copied

/-- Fuel-indexed chunk decomposition: the successive `src.read(n)` results of
the loop, i.e. `l.take n`, then the chunks of `l.drop n`, until the read
comes back empty. -/
def chunksOfF (n : Nat) : Nat → List α → List (List α)
  | _, [] => []
  | 0, _ :: _ => []
  | fuel + 1, x :: xs => (x :: xs).take n :: chunksOfF n fuel ((x :: xs).drop n)

/-- The list of chunks the worker reads from a file with content `l`. -/
def chunksOf (n : Nat) (l : List α) : List (List α) :=
  chunksOfF n l.length l

/-- Expected event trace of the inner loop expressed over the chunk
decomposition: one `writeChunk` followed by one `setStatus` per chunk, with a
running total of copied bytes. -/
def chunkTraceOf (total : Nat) : List (List Nat) → Nat → List EvT
  | [], _ => []
  | c :: cs, copied =>
      .writeChunk c.length :: .setStatus ((copied + c.length) / MB) (total / MB) ::
        chunkTraceOf total cs (copied + c.length)

/-- Result of `copy_worker` processing one task on its success path
(copy.py lines 57-88): destination bytes, status updates, full event trace
and the final `copied_size`. -/
structure TaskRun where
  destContent : List Nat
  statuses : List (Nat × Nat)
  events : List EvT
  copiedFinal : Nat
deriving DecidableEq

/-- Per-task body of `copy.py`'s `copy_worker` on the success path:
`os.makedirs` for the destination parent, open source and destination,
the chunked loop, `shutil.copystat`, `total_bytes_copied += copied_size`,
then the `finally` block (`copied_files += 1`, `progress_queue.put`,
status `Idle`, `file_queue.task_done()`). -/
def copy_worker_task (src : List Nat) : TaskRun :=
  let out := chunkLoop src.length src 0
  { destContent := out.written
    statuses := out.statuses
    events := [.makedirs, .openSrc, .openDst] ++ out.events ++
      [.copystat, .incTotalBytes out.finalCopied, .incCompleted, .progressPut,
       .setStatusIdle, .taskDone]
    copiedFinal := out.finalCopied }

/-- Identity OpenCL kernel of `copy-GPU-macOS.py` (lines 68-73): for each
global id `gid` in `range(len(input))`, `output[gid] = input[gid]`. -/
def gpuKernelCopy (input : List Nat) : List Nat :=
  (List.range input.length).map fun gid => input.getD gid 0

/-- Bytes written to the destination by `copy-GPU-macOS.py`'s `copy_worker`
(lines 94-124): the whole file is read at once; if the OpenCL context was
built and the file is non-empty the kernel output is written, with a plain
write of `file_data` as fallback when the OpenCL copy fails; otherwise
`file_data` is written directly. -/
def copy_worker_gpu_bytes (ctxOk clCopyFails : Bool) (fileData : List Nat) : List Nat :=
  if ctxOk ∧ 0 < fileData.length then
    if clCopyFails then fileData else gpuKernelCopy fileData
  else fileData

/-- Paths are modelled as lists of components; `os.path.join` is append. -/
abbrev PathC := List String

/-- Test used by `populate_file_queue` in `copy-GPU-macOS.py` (lines 44, 52):
the destination entry exists and `os.path.getsize` of source and destination
agree.  The task is enqueued exactly when this is `false`. -/
def sizeMatches (srcSize : Nat) (destEntry : Option Nat) : Bool :=
  match destEntry with
  | none => false
  | some d => srcSize == d

/-- A source for the GPU variant: either a single file (with its basename and
size) or a directory containing files given by source-relative path and size. -/
inductive SourceSpec where
  | file (name : String) (size : Nat)
  | dir (files : List (PathC × Nat))

/-- `populate_file_queue` of `copy-GPU-macOS.py` (lines 37-55).  `destFS`
maps a destination path to the size of the entry there, or `none` when
`os.path.exists` is false.  For a single-file source the relative path is the
basename and the queued task is `SOURCE_DIR` itself; for a directory source
every walked file is queued unless the destination entry exists with equal
size. -/
def populate_file_queue (sourceRoot : PathC) (src : SourceSpec) (destDir : PathC)
    (destFS : PathC → Option Nat) : List PathC :=
  match src with
  | .file name size =>
      if sizeMatches size (destFS (destDir ++ [name])) then [] else [sourceRoot]
  | .dir files =>
      (files.filter fun f => ! sizeMatches f.2 (destFS (destDir ++ f.1))).map
        fun f => sourceRoot ++ f.1

/-- Enumeration result of the plain variant: queue contents and `total_files`. -/
structure PlainEnum where
  queue : List PathC
  total_files : Nat
deriving DecidableEq

/-- `populate_file_queue` of `copy.py` (lines 35-41): every file produced by
`os.walk(source_dir)` is put on the queue — the destination is never
consulted — and `total_files` is the queue size. -/
def populate_file_queue_plain (walkFiles : List PathC) : PlainEnum :=
  { queue := walkFiles, total_files := walkFiles.length }

/-- Destination filesystem with exactly one entry, `dst/a.txt` of size 10,
mirroring a source tree whose only file `src/a.txt` also has size 10. -/
def mirrorFS : PathC → Option Nat :=
  fun p => if p = ["dst", "a.txt"] then some 10 else none

/-- Python `os.path.basename` on a component path. -/
def pyBasename (p : PathC) : String := p.getLast?.getD ""

/-- Python `os.path.relpath full base` for the cases the workers use: `base`
is a prefix of `full`.  When the two are equal the result is `"."`, otherwise
the components of `full` below `base`. -/
def relpathUnder (full base : PathC) : PathC :=
  if full = base then ["."] else full.drop base.length

/-- `DEST_DIR_FULL` of `copy-GPU-macOS.py` `start_copy` (lines 181-182):
the chosen destination plus a component named after the source's basename. -/
def destDirFull (destDir sourceDir : PathC) : PathC :=
  destDir ++ [pyBasename sourceDir]

/-- Destination path computed by the GPU variant's `copy_worker`
(lines 86-87): `os.path.join(DEST_DIR_FULL, os.path.relpath(src_file, SOURCE_DIR))`. -/
def gpuDestFile (destDir sourceDir srcFile : PathC) : PathC :=
  destDirFull destDir sourceDir ++ relpathUnder srcFile sourceDir

/-- Destination path computed by `copy.py`'s `copy_worker` (lines 57-58):
`os.path.join(dest_dir, os.path.relpath(src_file, source_dir))` — no
basename subfolder is inserted. -/
def plainDestFile (destDir sourceDir srcFile : PathC) : PathC :=
  destDir ++ relpathUnder srcFile sourceDir

/-- Events visible in the worker-loop state machine. -/
inductive MEv where
  | dequeue
  | writeChunk (len : Nat)
  | copystat
  | incBytes (n : Nat)
  | incCompleted
  | taskDone
deriving DecidableEq

/-- Program counter of a worker executing `copy.py`'s `copy_worker`
(lines 49-88).  `loopTop` is the head of the outer `while` (cancel check,
`pause_event.wait()`, `get_nowait`); `chunkTop` is the head of the inner
`while` (cancel check, `pause_event.wait()`, read) carrying the unread bytes,
`copied_size` and `total_size`; `finishTask` is the straight-line tail
(`shutil.copystat`, `total_bytes_copied +=`, then the `finally` block);
`exited` is after the loop breaks. -/
inductive WPC where
  | loopTop
  | chunkTop (pending : List Nat) (copied : Nat) (total : Nat)
  | finishTask (copied : Nat)
  | exited
deriving DecidableEq

/-- Shared state of the engine as seen by one worker: the queue's item list
and its `unfinished_tasks` counter, the run counters, the bytes written so
far to the current task's destination file, and the two `threading.Event`
flags (`pause_event` set means running, cleared means paused). -/
structure MState where
  pc : WPC
  queue : List (List Nat)
  unfinished : Nat
  copied_files : Nat
  total_bytes : Nat
  curDest : List Nat
  pauseSet : Bool
  cancelSet : Bool
  events : List MEv
deriving DecidableEq

/-- One small step of `copy_worker` (copy.py lines 49-88).  At `loopTop` and
`chunkTop` the worker first checks `cancel_event`, then blocks on
`pause_event.wait()` (modelled as a stutter while `pauseSet = false`).
Dequeuing opens the destination for writing, truncating it (`curDest := []`).
A cancelled inner loop breaks to `finishTask`, which runs `copystat`,
`total_bytes_copied += copied_size` and the `finally` block in one step, as
the source has no gate check between them. -/
def copy_worker_step (s : MState) : MState :=
  match s.pc with
  | .loopTop =>
      if s.cancelSet then { s with pc := .exited }
      else if s.pauseSet = false then s
      else
        match s.queue with
        | [] => { s with pc := .exited }
        | t :: rest =>
            { s with pc := .chunkTop t 0 t.length, queue := rest, curDest := [],
                     events := s.events ++ [.dequeue] }
  | .chunkTop pending copied total =>
      if s.cancelSet then { s with pc := .finishTask copied }
      else if s.pauseSet = false then s
      else
        match pending with
        | [] => { s with pc := .finishTask copied }
        | x :: xs =>
            { s with pc := .chunkTop ((x :: xs).drop CHUNK_SIZE)
                            (copied + ((x :: xs).take CHUNK_SIZE).length) total,
                     curDest := s.curDest ++ (x :: xs).take CHUNK_SIZE,
                     events := s.events ++ [.writeChunk ((x :: xs).take CHUNK_SIZE).length] }
  | .finishTask copied =>
      { s with pc := .loopTop, copied_files := s.copied_files + 1,
               total_bytes := s.total_bytes + copied,
               unfinished := s.unfinished - 1,
               events := s.events ++ [.copystat, .incBytes copied, .incCompleted, .taskDone] }
  | .exited => s

/-- `pause_copy` (copy.py line 208): `pause_event.clear()`. -/
def pause_copy (s : MState) : MState := { s with pauseSet := false }

/-- `resume_copy` (copy.py line 214): `pause_event.set()`. -/
def resume_copy (s : MState) : MState := { s with pauseSet := true }

/-- `cancel_copy` (copy.py lines 220-223): set `cancel_event`, set
`pause_event`, and clear the queue's item deque under its mutex.  Note that
`file_queue.queue.clear()` does not touch `unfinished_tasks`. -/
def cancel_copy (s : MState) : MState :=
  { s with cancelSet := true, pauseSet := true, queue := [] }

/-- `file_queue.join()` (used by `wait_for_completion`, copy.py line 201)
returns exactly when `unfinished_tasks` has reached zero. -/
def joinReturns (s : MState) : Bool := s.unfinished == 0

/-- The two gate suspension points: before dequeuing a task and before each
chunk read. -/
def isSuspension : WPC → Bool
  | .loopTop => true
  | .chunkTop _ _ _ => true
  | _ => false

/-- Initial state for the cancellation scenario: two enumerated tasks have
been `put` (so `unfinished_tasks = 2`), none dequeued yet, gate running. -/
def c4init : MState :=
  { pc := .loopTop, queue := [[1], [2]], unfinished := 2, copied_files := 0,
    total_bytes := 0, curDest := [], pauseSet := true, cancelSet := false, events := [] }

/-- A worker blocked at the dequeue suspension point while paused, with one
task still queued. -/
def pausedState : MState :=
  { pc := .loopTop, queue := [[3, 4]], unfinished := 1, copied_files := 0,
    total_bytes := 0, curDest := [], pauseSet := false, cancelSet := false, events := [] }

/-- A worker mid-task (two bytes still unread, two already written) just
after `resume_copy`. -/
def resumedState : MState :=
  { pc := .chunkTop [7, 8] 2 4, queue := [], unfinished := 1, copied_files := 0,
    total_bytes := 0, curDest := [5, 6], pauseSet := true, cancelSet := false, events := [] }

/-- A worker mid-task that observes `Cancelled` at the chunk suspension
point: bytes `[5, 6]` are already in the destination file, `[7, 8]` are
unread, and one more task is still queued. -/
def cancelledMidTask : MState :=
  { pc := .chunkTop [7, 8] 2 4, queue := [[9]], unfinished := 2, copied_files := 0,
    total_bytes := 0, curDest := [5, 6], pauseSet := true, cancelSet := true, events := [] }

/-- A per-worker status line: the values `thread_status[name]` takes in
`copy.py` — `"Waiting..."`, the per-chunk progress string (basename with
copied/total MiB), `"Error: <basename>"`, `"Idle"`. -/
inductive StatusLine where
  | waiting
  | progress (file : String) (copiedMB totalMB : Nat)
  | error (file : String)
  | idle
deriving DecidableEq

/-- A task for the error-handling model: file basename, content, and whether
the reads succeed (`readOk = false` means a read raises mid-task). -/
structure Task3 where
  name : String
  content : List Nat
  readOk : Bool
deriving DecidableEq

/-- Worker-visible state for the error-handling model: `copied_files`, the
worker's current status line, the full history of status assignments, the
number of `task_done` calls, and the destination files successfully written. -/
structure W3State where
  copied_files : Nat
  status : StatusLine
  statusHistory : List StatusLine
  taskDoneCount : Nat
  destWrites : List (String × List Nat)
deriving DecidableEq

/-- Status lines a successful task writes during its chunk loop. -/
def progressLines (t : Task3) : List StatusLine :=
  (chunkLoop t.content.length t.content 0).statuses.map fun p => .progress t.name p.1 p.2

/-- One iteration of `copy_worker`'s per-task `try/except/finally`
(copy.py lines 61-88).  On success the chunk loop writes the file and the
status updates; on a read failure the `except` records `"Error: <name>"`.
Either way the `finally` block then increments `copied_files`, sets the
status line to `Idle` (overwriting any error) and calls `task_done` exactly
once; the task is never re-queued. -/
def copy_worker_runTask (t : Task3) (s : W3State) : W3State :=
  if t.readOk then
    { copied_files := s.copied_files + 1
      status := .idle
      statusHistory := s.statusHistory ++ progressLines t ++ [.idle]
      taskDoneCount := s.taskDoneCount + 1
      destWrites := s.destWrites ++ [(t.name, (chunkLoop t.content.length t.content 0).written)] }
  else
    { copied_files := s.copied_files + 1
      status := .idle
      statusHistory := s.statusHistory ++ [.error t.name, .idle]
      taskDoneCount := s.taskDoneCount + 1
      destWrites := s.destWrites }

/-- The worker loop draining a queue of tasks in order (no cancellation). -/
def copy_worker_run (tasks : List Task3) (s : W3State) : W3State :=
  tasks.foldl (fun st t => copy_worker_runTask t st) s

/-- Worker state before any task: status `"Waiting..."`, all counters zero. -/
def init3 : W3State :=
  { copied_files := 0, status := .waiting, statusHistory := [], taskDoneCount := 0,
    destWrites := [] }

/-- Whether a status line is an error line. -/
def isErrorLine : StatusLine → Bool
  | .error _ => true
  | _ => false

/-- The error lines of a status history. -/
def errorLines (hist : List StatusLine) : List StatusLine :=
  hist.filter isErrorLine

/-- Five tasks of which exactly one (the third) suffers a read failure. -/
def tasks5 : List Task3 :=
  [⟨"a.bin", [1], true⟩, ⟨"b.bin", [2], true⟩, ⟨"c.bin", [3], false⟩,
   ⟨"d.bin", [4], true⟩, ⟨"e.bin", [5], true⟩]

/-- Gate state seen by the destination monitor. -/
structure MonState where
  pauseSet : Bool
  cancelSet : Bool
deriving DecidableEq

/-- One iteration of `monitor_destination` (copy-GPU-macOS.py lines 285-296).
`destReachable` is `DEST_DIR and os.path.exists(DEST_DIR)`; `startDisabled`
is `not start_button['state'] == tk.NORMAL`, i.e. a run is active.  When not
cancelled: if the destination is reachable and the gate is paused during an
active run, `pause_event.set()`; if it is unreachable and the gate is
running, `pause_event.clear()`.  `cancel_event` is never written. -/
def monitor_destination_step (destReachable startDisabled : Bool) (s : MonState) : MonState :=
  if s.cancelSet then s
  else if destReachable then
    if !s.pauseSet && startDisabled then { s with pauseSet := true } else s
  else
    if s.pauseSet then { s with pauseSet := false } else s

/-- Division with an explicit divisor-zero check: `none` would mean the code
evaluated `a / b` with `b = 0`. -/
def checkedDiv (a b : ℚ) : Option ℚ :=
  if b = 0 then none else some (a / b)

/-- Snapshot assembled by `update_ui` in `copy.py`: percent, elapsed seconds,
and the remaining-time and speed readouts (`none` renders the `--`
placeholders). -/
structure Snap where
  percent : ℚ
  elapsed : ℚ
  remaining : Option ℚ
  speed : Option ℚ
deriving DecidableEq

/-- The arithmetic of `update_ui` (copy.py lines 96-117) with every division
routed through `checkedDiv`: `percent = (current / total_files) * 100 if
total_files else 0`; `elapsed = time.time() - start_time if start_time else
0`; under `copied_files > 0 and start_time`, `estimated_total = (elapsed /
copied_files) * total_files`, `remaining = estimated_total - elapsed` and
`speed = total_bytes_copied / elapsed if elapsed else 0`; otherwise the
placeholder readouts. -/
def update_ui_calc (current total copied : Nat) (bytes startT now : ℚ) : Option Snap :=
  let percentOpt : Option ℚ :=
    if total ≠ 0 then (checkedDiv (current : ℚ) (total : ℚ)).map (fun q => q * 100)
    else some 0
  match percentOpt with
  | none => none
  | some percent =>
    let elapsed : ℚ := if startT ≠ 0 then now - startT else 0
    if 0 < copied ∧ startT ≠ 0 then
      match checkedDiv elapsed (copied : ℚ) with
      | none => none
      | some perFile =>
        match (if elapsed ≠ 0 then checkedDiv bytes elapsed else some 0) with
        | none => none
        | some speed => some ⟨percent, elapsed, some (perFile * (total : ℚ) - elapsed), some speed⟩
    else some ⟨percent, elapsed, none, none⟩

/-- The three division sites of `update_ui`. -/
inductive DivSite where
  | percentDiv
  | etaDiv
  | speedDiv
deriving DecidableEq

/-- The divisions (site, numerator, divisor) that one `update_ui` pass of
`copy.py` actually evaluates, following the code's branch structure: the
percent division under `if total_files`, and, under `copied_files > 0 and
start_time`, the ETA division `elapsed / copied_files` (unconditionally) and
the speed division `total_bytes_copied / elapsed` under `if elapsed`. -/
def update_ui_divs (current total copied : Nat) (bytes startT now : ℚ) :
    List (DivSite × ℚ × ℚ) :=
  let pdivs : List (DivSite × ℚ × ℚ) :=
    if total ≠ 0 then [(.percentDiv, (current : ℚ), (total : ℚ))] else []
  let elapsed : ℚ := if startT ≠ 0 then now - startT else 0
  if 0 < copied ∧ startT ≠ 0 then
    pdivs ++ [(.etaDiv, elapsed, (copied : ℚ))] ++
      (if elapsed ≠ 0 then [(.speedDiv, bytes, elapsed)] else [])
  else pdivs

/-- The percent computation of `update_ui` in `copy-GPU-macOS.py`
(lines 143-147), the only division that variant performs. -/
def gpu_update_ui_percent (current total : Nat) : Option ℚ :=
  if total ≠ 0 then (checkedDiv (current : ℚ) (total : ℚ)).map (fun q => q * 100)
  else some 0

/-! Helper lemmas about the chunked copy loop. -/

theorem chunkSize_pos : 0 < CHUNK_SIZE := by decide

theorem chunkLoopF_written (total : Nat) :
    ∀ (fuel : Nat) (pending : List Nat) (copied : Nat), pending.length ≤ fuel →
      (chunkLoopF total fuel pending copied).written = pending := by
  intro fuel
  induction fuel with
  | zero =>
      intro pending copied h
      have hnil : pending = [] := List.eq_nil_of_length_eq_zero (Nat.le_zero.mp h)
      subst hnil
      rfl
  | succ m ih =>
      intro pending copied h
      cases pending with
      | nil => rfl
      | cons x xs =>
          simp only [chunkLoopF]
          rw [ih]
          · exact List.take_append_drop CHUNK_SIZE (x :: xs)
          · have h2 : ((x :: xs).drop CHUNK_SIZE).length = (x :: xs).length - CHUNK_SIZE :=
              List.length_drop _ _
            have h3 : 1 ≤ CHUNK_SIZE := by decide
            have h4 : (x :: xs).length ≤ m + 1 := h
            omega

theorem chunkLoopF_final (total : Nat) :
    ∀ (fuel : Nat) (pending : List Nat) (copied : Nat), pending.length ≤ fuel →
      (chunkLoopF total fuel pending copied).finalCopied = copied + pending.length := by
  intro fuel
  induction fuel with
  | zero =>
      intro pending copied h
      have hnil : pending = [] := List.eq_nil_of_length_eq_zero (Nat.le_zero.mp h)
      subst hnil
      simp [chunkLoopF]
  | succ m ih =>
      intro pending copied h
      cases pending with
      | nil => simp [chunkLoopF]
      | cons x xs =>
          simp only [chunkLoopF]
          rw [ih]
          · simp only [List.length_take, List.length_drop]
            omega
          · have h2 : ((x :: xs).drop CHUNK_SIZE).length = (x :: xs).length - CHUNK_SIZE :=
              List.length_drop _ _
            have h3 : 1 ≤ CHUNK_SIZE := by decide
            have h4 : (x :: xs).length ≤ m + 1 := h
            omega

theorem chunkLoopF_events (total : Nat) :
    ∀ (fuel : Nat) (pending : List Nat) (copied : Nat),
      (chunkLoopF total fuel pending copied).events =
        chunkTraceOf total (chunksOfF CHUNK_SIZE fuel pending) copied := by
  intro fuel
  induction fuel with
  | zero =>
      intro pending copied
      cases pending <;> simp [chunkLoopF, chunksOfF, chunkTraceOf]
  | succ m ih =>
      intro pending copied
      cases pending with
      | nil => simp [chunkLoopF, chunksOfF, chunkTraceOf]
      | cons x xs => simp [chunkLoopF, chunksOfF, chunkTraceOf, ih]

theorem chunksOfF_mem {n : Nat} (hn : 0 < n) :
    ∀ (fuel : Nat) (l : List α) (c : List α), c ∈ chunksOfF n fuel l →
      c ≠ [] ∧ c.length ≤ n := by
  intro fuel
  induction fuel with
  | zero =>
      intro l c hc
      cases l <;> simp [chunksOfF] at hc
  | succ m ih =>
      intro l c hc
      cases l with
      | nil => simp [chunksOfF] at hc
      | cons x xs =>
          simp only [chunksOfF, List.mem_cons] at hc
          rcases hc with rfl | hc
          · constructor
            · obtain ⟨k, rfl⟩ := Nat.exists_eq_succ_of_ne_zero (Nat.pos_iff_ne_zero.mp hn)
              simp
            · simp [List.length_take_le]
          · exact ih _ _ hc

theorem chunksOfF_dropLast {n : Nat} (hn : 0 < n) :
    ∀ (fuel : Nat) (l : List α), l.length ≤ fuel →
      ∀ c ∈ (chunksOfF n fuel l).dropLast, c.length = n := by
  intro fuel
  induction fuel with
  | zero =>
      intro l h c hc
      have hnil : l = [] := List.eq_nil_of_length_eq_zero (Nat.le_zero.mp h)
      subst hnil
      simp [chunksOfF] at hc
  | succ m ih =>
      intro l h c hc
      cases l with
      | nil => simp [chunksOfF] at hc
      | cons x xs =>
          by_cases hdrop : (x :: xs).drop n = []
          · have hrest : chunksOfF n m ((x :: xs).drop n) = [] := by
              rw [hdrop]; cases m <;> rfl
            simp [chunksOfF, hrest] at hc
          · have hm : ((x :: xs).drop n).length ≤ m := by
              have h2 : ((x :: xs).drop n).length = (x :: xs).length - n := List.length_drop _ _
              have h4 : (x :: xs).length ≤ m + 1 := h
              omega
            have hrest_ne : chunksOfF n m ((x :: xs).drop n) ≠ [] := by
              obtain ⟨d, ds, hds⟩ : ∃ d ds, (x :: xs).drop n = d :: ds := by
                cases hd : (x :: xs).drop n with
                | nil => exact absurd hd hdrop
                | cons d ds => exact ⟨d, ds, rfl⟩
              obtain ⟨m2, rfl⟩ : ∃ m2, m = m2 + 1 := by
                rcases m with _ | m2
                · exfalso; rw [hds] at hm; simp at hm
                · exact ⟨m2, rfl⟩
              rw [hds]
              simp [chunksOfF]
            simp only [chunksOfF] at hc
            rw [List.dropLast_cons_of_ne_nil hrest_ne] at hc
            rcases List.mem_cons.mp hc with rfl | hc2
            · have hle : ¬ (x :: xs).length ≤ n := fun hcon =>
                hdrop (List.drop_eq_nil_iff.mpr hcon)
              simp only [List.length_take]
              omega
            · exact ih _ hm c hc2

theorem gpuKernelCopy_id : ∀ l : List Nat, gpuKernelCopy l = l := by
  intro l
  induction l with
  | nil => rfl
  | cons a tl ih =>
      unfold gpuKernelCopy at ih ⊢
      simp only [List.length_cons, List.range_succ_eq_map, List.map_cons, List.map_map,
        List.getD_cons_zero, Function.comp_def, List.getD_cons_succ]
      exact congrArg (a :: ·) ih

/-! Helper lemmas about the worker-loop state machine. -/

theorem copy_worker_step_gate (s : MState) :
    (copy_worker_step s).pauseSet = s.pauseSet ∧ (copy_worker_step s).cancelSet = s.cancelSet := by
  unfold copy_worker_step
  repeat' split
  all_goals exact ⟨rfl, rfl⟩

theorem paused_suspension_stutter (s : MState) (hp : s.pauseSet = false)
    (hc : s.cancelSet = false) (hs : isSuspension s.pc = true) :
    copy_worker_step s = s := by
  rcases hpc : s.pc with _ | ⟨pending, copied, total⟩ | copied | _
  · simp [copy_worker_step, hpc, hc, hp]
  · simp [copy_worker_step, hpc, hc, hp]
  · rw [hpc] at hs; simp [isSuspension] at hs
  · rw [hpc] at hs; simp [isSuspension] at hs

theorem paused_idem (s : MState) (hp : s.pauseSet = false) (hc : s.cancelSet = false) :
    copy_worker_step (copy_worker_step s) = copy_worker_step s := by
  rcases hpc : s.pc with _ | ⟨pending, copied, total⟩ | copied | _
  · rw [paused_suspension_stutter s hp hc (by rw [hpc]; rfl)]
    exact paused_suspension_stutter s hp hc (by rw [hpc]; rfl)
  · rw [paused_suspension_stutter s hp hc (by rw [hpc]; rfl)]
    exact paused_suspension_stutter s hp hc (by rw [hpc]; rfl)
  · have h1 : copy_worker_step s =
        { s with pc := .loopTop, copied_files := s.copied_files + 1,
                 total_bytes := s.total_bytes + copied,
                 unfinished := s.unfinished - 1,
                 events := s.events ++ [.copystat, .incBytes copied, .incCompleted, .taskDone] } := by
      simp [copy_worker_step, hpc]
    rw [h1]
    exact paused_suspension_stutter _ (by simp [hp]) (by simp [hc]) rfl
  · have h1 : copy_worker_step s = s := by simp [copy_worker_step, hpc]
    rw [h1, h1]

theorem copied_step_le (s : MState) (hp : s.pauseSet = false) (hc : s.cancelSet = false) :
    (copy_worker_step s).copied_files ≤ s.copied_files + 1 := by
  rcases hpc : s.pc with _ | ⟨pending, copied, total⟩ | copied | _
  · simp [copy_worker_step, hpc, hc, hp]
  · simp [copy_worker_step, hpc, hc, hp]
  · simp [copy_worker_step, hpc]
  · simp [copy_worker_step, hpc]

theorem chunk_advance_nil (s : MState) (copied total : Nat) (hp : s.pauseSet = true)
    (hc : s.cancelSet = false) (hpc : s.pc = .chunkTop [] copied total) :
    (copy_worker_step^[2] s).copied_files = s.copied_files + 1 := by
  have h1 : copy_worker_step s = { s with pc := .finishTask copied } := by
    simp [copy_worker_step, hpc, hc, hp]
  have h2 : copy_worker_step^[2] s = copy_worker_step (copy_worker_step s) := by
    simp [Function.iterate_succ_apply']
  rw [h2, h1]
  simp [copy_worker_step]

theorem chunk_advance : ∀ (k : Nat) (s : MState) (pending : List Nat) (copied total : Nat),
    s.pauseSet = true → s.cancelSet = false → s.pc = .chunkTop pending copied total →
    pending.length ≤ k →
    ∃ n, (copy_worker_step^[n] s).copied_files = s.copied_files + 1 := by
  intro k
  induction k with
  | zero =>
      intro s pending copied total hp hc hpc hlen
      have hnil : pending = [] := List.eq_nil_of_length_eq_zero (Nat.le_zero.mp hlen)
      subst hnil
      exact ⟨2, chunk_advance_nil s copied total hp hc hpc⟩
  | succ m ih =>
      intro s pending copied total hp hc hpc hlen
      cases pending with
      | nil => exact ⟨2, chunk_advance_nil s copied total hp hc hpc⟩
      | cons x xs =>
          have hpc1 : (copy_worker_step s).pc =
              .chunkTop ((x :: xs).drop CHUNK_SIZE)
                (copied + ((x :: xs).take CHUNK_SIZE).length) total := by
            simp [copy_worker_step, hpc, hc, hp]
          have hcf1 : (copy_worker_step s).copied_files = s.copied_files := by
            simp [copy_worker_step, hpc, hc, hp]
          have hp1 : (copy_worker_step s).pauseSet = true :=
            (copy_worker_step_gate s).1.trans hp
          have hc1 : (copy_worker_step s).cancelSet = false :=
            (copy_worker_step_gate s).2.trans hc
          have hlen1 : ((x :: xs).drop CHUNK_SIZE).length ≤ m := by
            have h2 : ((x :: xs).drop CHUNK_SIZE).length = (x :: xs).length - CHUNK_SIZE :=
              List.length_drop _ _
            have h3 : 1 ≤ CHUNK_SIZE := by decide
            have h4 : (x :: xs).length ≤ m + 1 := hlen
            omega
          obtain ⟨n, hn⟩ := ih (copy_worker_step s) _ _ _ hp1 hc1 hpc1 hlen1
          refine ⟨n + 1, ?_⟩
          rw [Function.iterate_succ_apply, hn, hcf1]

/-! Helper lemmas about the error-handling worker loop. -/

theorem copy_worker_runTask_copied (t : Task3) (s : W3State) :
    (copy_worker_runTask t s).copied_files = s.copied_files + 1 := by
  by_cases h : t.readOk <;> simp [copy_worker_runTask, h]

theorem copy_worker_runTask_done (t : Task3) (s : W3State) :
    (copy_worker_runTask t s).taskDoneCount = s.taskDoneCount + 1 := by
  by_cases h : t.readOk <;> simp [copy_worker_runTask, h]

theorem copy_worker_run_copied : ∀ (tasks : List Task3) (s : W3State),
    (copy_worker_run tasks s).copied_files = s.copied_files + tasks.length := by
  intro tasks
  induction tasks with
  | nil => intro s; simp [copy_worker_run]
  | cons t ts ih =>
      intro s
      simp only [copy_worker_run, List.foldl_cons] at *
      rw [ih (copy_worker_runTask t s), copy_worker_runTask_copied]
      simp [Nat.add_assoc, Nat.add_comm 1 ts.length]

theorem copy_worker_run_done : ∀ (tasks : List Task3) (s : W3State),
    (copy_worker_run tasks s).taskDoneCount = s.taskDoneCount + tasks.length := by
  intro tasks
  induction tasks with
  | nil => intro s; simp [copy_worker_run]
  | cons t ts ih =>
      intro s
      simp only [copy_worker_run, List.foldl_cons] at *
      rw [ih (copy_worker_runTask t s), copy_worker_runTask_done]
      simp [Nat.add_assoc, Nat.add_comm 1 ts.length]

theorem errorLines_progressLines (t : Task3) : errorLines (progressLines t) = [] := by
  unfold errorLines progressLines
  generalize (chunkLoop t.content.length t.content 0).statuses = l
  induction l with
  | nil => rfl
  | cons p ps ih => simp [List.filter_cons, isErrorLine, ih]

theorem copy_worker_run_errorLines : ∀ (tasks : List Task3) (s : W3State),
    errorLines (copy_worker_run tasks s).statusHistory =
      errorLines s.statusHistory ++
        (tasks.filter fun t => !t.readOk).map (fun t => .error t.name) := by
  intro tasks
  induction tasks with
  | nil => intro s; simp [copy_worker_run]
  | cons t ts ih =>
      intro s
      simp only [copy_worker_run, List.foldl_cons] at *
      rw [ih (copy_worker_runTask t s)]
      by_cases h : t.readOk
      · have h2 : errorLines (copy_worker_runTask t s).statusHistory =
            errorLines s.statusHistory := by
          simp only [copy_worker_runTask, if_pos h, errorLines, List.filter_append]
          have h3 := errorLines_progressLines t
          unfold errorLines at h3
          simp [h3, isErrorLine]
        rw [h2]
        simp [List.filter_cons, h]
      · have h2 : errorLines (copy_worker_runTask t s).statusHistory =
            errorLines s.statusHistory ++ [.error t.name] := by
          simp [copy_worker_runTask, if_neg h, errorLines, List.filter_append,
            List.filter_cons, isErrorLine]
        rw [h2]
        simp [List.filter_cons, h]

theorem chunkLoop_written (total : Nat) (pending : List Nat) (copied : Nat) :
    (chunkLoop total pending copied).written = pending := by
  unfold chunkLoop
  exact chunkLoopF_written _ _ _ _ le_rfl

theorem copy_worker_run_destWrites : ∀ (tasks : List Task3) (s : W3State),
    (copy_worker_run tasks s).destWrites =
      s.destWrites ++ (tasks.filter fun t => t.readOk).map (fun t => (t.name, t.content)) := by
  intro tasks
  induction tasks with
  | nil => intro s; simp [copy_worker_run]
  | cons t ts ih =>
      intro s
      simp only [copy_worker_run, List.foldl_cons] at *
      rw [ih (copy_worker_runTask t s)]
      by_cases h : t.readOk
      · have h2 : (copy_worker_runTask t s).destWrites =
            s.destWrites ++ [(t.name, t.content)] := by
          simp only [copy_worker_runTask, if_pos h]
          rw [chunkLoop_written]
        rw [h2]
        simp [List.filter_cons, h]
      · have h2 : (copy_worker_runTask t s).destWrites = s.destWrites := by
          simp [copy_worker_runTask, if_neg h]
        rw [h2]
        simp [List.filter_cons, h]

theorem copy_worker_run_status : ∀ (ts : List Task3) (t : Task3) (s : W3State),
    (copy_worker_run (t :: ts) s).status = .idle := by
  intro ts
  induction ts with
  | nil =>
      intro t s
      by_cases h : t.readOk <;> simp [copy_worker_run, copy_worker_runTask, h]
  | cons t2 ts2 ih =>
      intro t s
      simp only [copy_worker_run, List.foldl_cons] at *
      exact ih t2 (copy_worker_runTask t s)

/-- Two entries of a walk listing with the same path are the same entry when
the walked paths are distinct. -/
theorem pair_eq_of_fst_nodup {l : List (PathC × Nat)} (h : (l.map Prod.fst).Nodup)
    {p q : PathC × Nat} (hp : p ∈ l) (hq : q ∈ l) (hfst : p.1 = q.1) : p = q := by
  induction l with
  | nil => cases hp
  | cons a t ih =>
      rw [List.map_cons, List.nodup_cons] at h
      rcases List.mem_cons.mp hp with rfl | hp2 <;> rcases List.mem_cons.mp hq with rfl | hq2
      · rfl
      · exfalso
        apply h.1
        rw [hfst]
        exact List.mem_map_of_mem Prod.fst hq2
      · exfalso
        apply h.1
        rw [← hfst]
        exact List.mem_map_of_mem Prod.fst hp2
      · exact ih h.2 hp2 hq2

/-! Claim theorems. -/

/-- C1: for every task the worker dequeues (modelled on the success path of
`copy.py`'s `copy_worker`), the copy opens the source and destination
(creating parent directories), transfers the bytes in 4 MiB chunks until
end-of-input with a status update carrying the cumulative copied bytes after
each chunk, then applies `shutil.copystat`, then marks the task done and
increments `copied_files` and the cumulative byte counter; the destination's
byte content equals the source's byte content. -/
theorem C1_copy_algorithm (src : List Nat) :
    (copy_worker_task src).destContent = src
  ∧ (copy_worker_task src).events =
      [.makedirs, .openSrc, .openDst] ++
        chunkTraceOf src.length (chunksOf CHUNK_SIZE src) 0 ++
        [.copystat, .incTotalBytes src.length, .incCompleted, .progressPut,
         .setStatusIdle, .taskDone]
  ∧ (∀ c ∈ chunksOf CHUNK_SIZE src, c ≠ [] ∧ c.length ≤ CHUNK_SIZE)
  ∧ (∀ c ∈ (chunksOf CHUNK_SIZE src).dropLast, c.length = CHUNK_SIZE)
  ∧ (copy_worker_task src).copiedFinal = src.length := by
  refine ⟨?_, ?_, ?_, ?_, ?_⟩
  · simp [copy_worker_task, chunkLoop_written]
  · simp only [copy_worker_task, chunkLoop, chunksOf]
    rw [chunkLoopF_events, chunkLoopF_final _ _ _ _ le_rfl]
    simp
  · intro c hc
    exact chunksOfF_mem chunkSize_pos _ _ _ hc
  · intro c hc
    exact chunksOfF_dropLast chunkSize_pos _ _ le_rfl c hc
  · simp only [copy_worker_task, chunkLoop]
    rw [chunkLoopF_final _ _ _ _ le_rfl]
    simp

/-- C1 witness: a concrete three-byte file is copied verbatim and forms a
single chunk, non-empty and within the 4 MiB bound. -/
theorem C1_copy_algorithm_witness :
    (copy_worker_task [1, 2, 3]).destContent = [1, 2, 3]
  ∧ (([1, 2, 3] : List Nat) ≠ [] ∧ ([1, 2, 3] : List Nat).length ≤ CHUNK_SIZE) :=
  ⟨(C1_copy_algorithm [1, 2, 3]).1,
   (C1_copy_algorithm [1, 2, 3]).2.2.1 [1, 2, 3] (by decide)⟩

/-- C2 counterexample: `copy.py`'s `populate_file_queue` never consults the
destination.  With a single source file `src/a.txt` of size 10 whose
destination entry `dst/a.txt` exists with the identical size 10 (so the claim
says its task is omitted), the plain variant still enumerates the task, and
`total_files = 1`, not 0. -/
theorem C2_counterexample :
    mirrorFS ["dst", "a.txt"] = some 10
  ∧ sizeMatches 10 (mirrorFS ["dst", "a.txt"]) = true
  ∧ (populate_file_queue_plain [["src", "a.txt"]]).queue = [["src", "a.txt"]]
  ∧ (populate_file_queue_plain [["src", "a.txt"]]).total_files = 1 := by
  decide

/-- C2 amended: in the GPU variant (`copy-GPU-macOS.py`), a walked file's
task is omitted iff the destination entry exists with byte-identical size;
when the destination fully mirrors the source the enumeration is empty (and
`total_files = 0`, the "nothing to do" outcome); a single-file source is
likewise enqueued iff the size check fails.  The plain variant (`copy.py`)
enumerates every walked file unconditionally. -/
theorem C2_skip_rule (sourceRoot destDir : PathC) (files : List (PathC × Nat))
    (destFS : PathC → Option Nat) :
    ((files.map Prod.fst).Nodup → ∀ rel size, (rel, size) ∈ files →
       ((sourceRoot ++ rel) ∈ populate_file_queue sourceRoot (.dir files) destDir destFS ↔
         sizeMatches size (destFS (destDir ++ rel)) = false))
  ∧ ((∀ f ∈ files, sizeMatches f.2 (destFS (destDir ++ f.1)) = true) →
       populate_file_queue sourceRoot (.dir files) destDir destFS = [])
  ∧ (∀ name size,
       populate_file_queue sourceRoot (.file name size) destDir destFS = [] ↔
         sizeMatches size (destFS (destDir ++ [name])) = true)
  ∧ (∀ walkFiles : List PathC, (populate_file_queue_plain walkFiles).queue = walkFiles) := by
  refine ⟨?_, ?_, ?_, fun _ => rfl⟩
  · intro hnd rel size hmem
    constructor
    · intro hin
      simp only [populate_file_queue, List.mem_map] at hin
      obtain ⟨f, hf, heq⟩ := hin
      rw [List.mem_filter] at hf
      have hrel : f.1 = rel := List.append_cancel_left heq
      have hfq : f = (rel, size) := pair_eq_of_fst_nodup hnd hf.1 hmem hrel
      rw [hfq] at hf
      simpa using hf.2
    · intro hfalse
      simp only [populate_file_queue, List.mem_map]
      refine ⟨(rel, size), ?_, rfl⟩
      rw [List.mem_filter]
      exact ⟨hmem, by simp [hfalse]⟩
  · intro hall
    have hfil : (files.filter fun f => ! sizeMatches f.2 (destFS (destDir ++ f.1))) = [] := by
      rw [List.filter_eq_nil_iff]
      intro a ha
      simp [hall a ha]
    simp [populate_file_queue, hfil]
  · intro name size
    by_cases h : sizeMatches size (destFS (destDir ++ [name])) = true
    · simp [populate_file_queue, h]
    · simp [populate_file_queue, h]

/-- C2 witness: with one already-mirrored file (`a.txt`, size 10) and one
new file (`b.txt`, size 7), the GPU enumeration keeps exactly the unmatched
task, and a fully mirrored directory enumerates nothing. -/
theorem C2_skip_rule_witness :
    ((["src"] ++ ["b.txt"]) ∈
        populate_file_queue ["src"] (.dir [(["a.txt"], 10), (["b.txt"], 7)]) ["dst"] mirrorFS ↔
      sizeMatches 7 (mirrorFS (["dst"] ++ ["b.txt"])) = false)
  ∧ populate_file_queue ["src"] (.dir [(["a.txt"], 10)]) ["dst"] mirrorFS = [] :=
  ⟨(C2_skip_rule ["src"] ["dst"] [(["a.txt"], 10), (["b.txt"], 7)] mirrorFS).1
      (by decide) ["b.txt"] 7 (by decide),
   (C2_skip_rule ["src"] ["dst"] [(["a.txt"], 10)] mirrorFS).2.1 (by decide)⟩

/-- C3 counterexample: with 5 enumerated tasks of which exactly one suffers a
read failure, `completed_files` does reach 5, but the claimed final state —
exactly one per-worker status line marked as an error — does not hold: the
`finally` block overwrites the error with `"Idle"` after every task, so the
worker's final status line is `Idle` and no error line remains in the final
state (the error entry exists only transiently in the status history). -/
theorem C3_counterexample :
    (copy_worker_run tasks5 init3).copied_files = 5
  ∧ (errorLines (copy_worker_run tasks5 init3).statusHistory).length = 1
  ∧ (copy_worker_run tasks5 init3).status = .idle
  ∧ isErrorLine (copy_worker_run tasks5 init3).status = false := by
  decide

/-- C3 amended: on a read failure the worker records the task's status as an
error carrying the file name (visible in the status history), still marks the
task done exactly once (no retry, no re-insertion), and continues to the next
task — every later successful task is still copied verbatim; after all tasks
`completed_files` equals the task count.  However, the `finally` block then
sets the status line to `Idle`, so the final per-worker status line is never
an error line. -/
theorem C3_error_handling (tasks : List Task3) :
    (copy_worker_run tasks init3).copied_files = tasks.length
  ∧ (copy_worker_run tasks init3).taskDoneCount = tasks.length
  ∧ errorLines (copy_worker_run tasks init3).statusHistory =
      (tasks.filter fun t => !t.readOk).map (fun t => .error t.name)
  ∧ (copy_worker_run tasks init3).destWrites =
      (tasks.filter fun t => t.readOk).map (fun t => (t.name, t.content))
  ∧ (tasks ≠ [] → (copy_worker_run tasks init3).status = .idle)
  ∧ isErrorLine (copy_worker_run tasks init3).status = false := by
  refine ⟨?_, ?_, ?_, ?_, ?_, ?_⟩
  · rw [copy_worker_run_copied]
    simp [init3]
  · rw [copy_worker_run_done]
    simp [init3]
  · rw [copy_worker_run_errorLines]
    rfl
  · rw [copy_worker_run_destWrites]
    rfl
  · intro h
    cases tasks with
    | nil => exact absurd rfl h
    | cons t ts => exact copy_worker_run_status ts t init3
  · cases tasks with
    | nil => rfl
    | cons t ts => rw [copy_worker_run_status ts t init3]; rfl

/-- C3 witness: the general theorem applied to the concrete 5-task run with
one read failure. -/
theorem C3_error_handling_witness :
    (copy_worker_run tasks5 init3).copied_files = tasks5.length
  ∧ (copy_worker_run tasks5 init3).status = .idle :=
  ⟨(C3_error_handling tasks5).1, (C3_error_handling tasks5).2.2.2.2.1 (by decide)⟩

/-- C4: evaluation of the code at the failing input.  `cancel_copy` clears
the queue's item deque, so the remaining tasks are drained and no worker can
dequeue or process them afterwards (the event log stays empty); but since the
cleared tasks are never passed to `task_done`, `unfinished_tasks` stays at 2
forever, so `file_queue.join()` — the drain wait used by
`wait_for_completion` — never returns. -/
theorem C4_cancel_join_blocked :
    (cancel_copy c4init).queue = []
  ∧ (∀ n, (copy_worker_step^[n] (cancel_copy c4init)).unfinished = 2)
  ∧ (∀ n, joinReturns (copy_worker_step^[n] (cancel_copy c4init)) = false)
  ∧ (∀ n, (copy_worker_step^[n] (cancel_copy c4init)).events = [])
  ∧ (∀ n, (copy_worker_step^[n] (cancel_copy c4init)).copied_files = 0) := by
  have hstep : copy_worker_step (cancel_copy c4init) =
      { pc := .exited, queue := [], unfinished := 2, copied_files := 0, total_bytes := 0,
        curDest := [], pauseSet := true, cancelSet := true, events := [] } := by
    decide
  have hfix : copy_worker_step
      ({ pc := .exited, queue := [], unfinished := 2, copied_files := 0, total_bytes := 0,
         curDest := [], pauseSet := true, cancelSet := true, events := [] } : MState) =
      { pc := .exited, queue := [], unfinished := 2, copied_files := 0, total_bytes := 0,
        curDest := [], pauseSet := true, cancelSet := true, events := [] } := by
    decide
  have key : ∀ n, copy_worker_step^[n] (cancel_copy c4init) = cancel_copy c4init ∨
      copy_worker_step^[n] (cancel_copy c4init) =
        { pc := .exited, queue := [], unfinished := 2, copied_files := 0, total_bytes := 0,
          curDest := [], pauseSet := true, cancelSet := true, events := [] } := by
    intro n
    cases n with
    | zero => left; rfl
    | succ m =>
        right
        rw [Function.iterate_succ_apply, hstep]
        exact Function.iterate_fixed hfix m
  refine ⟨by decide, ?_, ?_, ?_, ?_⟩ <;>
    intro n <;> rcases key n with h | h <;> rw [h] <;> decide

/-- C5: after `pause_copy` clears the gate, a worker sitting at a suspension
point (before a dequeue or before a chunk read) takes no step at all, so
`completed_files` does not advance for the duration of the pause; in general
a paused worker advances `completed_files` by at most one — the task whose
final chunk it had already passed (chunk granularity); after `resume_copy`
sets the gate, a worker mid-task, or one at the loop top with a queued task,
reaches a state with `completed_files` strictly advanced. -/
theorem C5_pause_resume (s : MState) :
    (s.cancelSet = false → isSuspension s.pc = true →
       ∀ n, copy_worker_step^[n] (pause_copy s) = pause_copy s)
  ∧ (s.cancelSet = false →
       ∀ n, (copy_worker_step^[n] (pause_copy s)).copied_files ≤ s.copied_files + 1)
  ∧ (∀ pending copied total, s.cancelSet = false → s.pc = .chunkTop pending copied total →
       ∃ n, (copy_worker_step^[n] (resume_copy s)).copied_files = s.copied_files + 1)
  ∧ (∀ t rest, s.cancelSet = false → s.pc = .loopTop → s.queue = t :: rest →
       ∃ n, (copy_worker_step^[n] (resume_copy s)).copied_files = s.copied_files + 1) := by
  refine ⟨?_, ?_, ?_, ?_⟩
  · intro hc hs n
    have hstut : copy_worker_step (pause_copy s) = pause_copy s :=
      paused_suspension_stutter (pause_copy s) rfl hc hs
    exact Function.iterate_fixed hstut n
  · intro hc n
    have hps : (pause_copy s).pauseSet = false := rfl
    have hcs : (pause_copy s).cancelSet = false := hc
    cases n with
    | zero => simp [pause_copy]
    | succ m =>
        rw [Function.iterate_succ_apply,
          Function.iterate_fixed (paused_idem (pause_copy s) hps hcs) m]
        have := copied_step_le (pause_copy s) hps hcs
        simpa [pause_copy] using this
  · intro pending copied total hc hpc
    obtain ⟨n, hn⟩ := chunk_advance pending.length (resume_copy s) pending copied total
      rfl hc hpc le_rfl
    exact ⟨n, by simpa [resume_copy] using hn⟩
  · intro t rest hc hpc hq
    have hpc1 : (copy_worker_step (resume_copy s)).pc = .chunkTop t 0 t.length := by
      simp [copy_worker_step, resume_copy, hpc, hc, hq]
    have hcf1 : (copy_worker_step (resume_copy s)).copied_files = s.copied_files := by
      simp [copy_worker_step, resume_copy, hpc, hc, hq]
    have hp1 : (copy_worker_step (resume_copy s)).pauseSet = true :=
      (copy_worker_step_gate (resume_copy s)).1
    have hc1 : (copy_worker_step (resume_copy s)).cancelSet = false :=
      (copy_worker_step_gate (resume_copy s)).2.trans hc
    obtain ⟨n, hn⟩ := chunk_advance t.length (copy_worker_step (resume_copy s)) t 0 t.length
      hp1 hc1 hpc1 le_rfl
    refine ⟨n + 1, ?_⟩
    rw [Function.iterate_succ_apply, hn, hcf1]

/-- C5 witness: a paused worker at the dequeue suspension point is frozen for
three steps, and a resumed mid-task worker eventually completes its task. -/
theorem C5_pause_resume_witness :
    copy_worker_step^[3] (pause_copy pausedState) = pause_copy pausedState
  ∧ ∃ n, (copy_worker_step^[n] (resume_copy resumedState)).copied_files =
      resumedState.copied_files + 1 :=
  ⟨(C5_pause_resume pausedState).1 rfl rfl 3,
   (C5_pause_resume resumedState).2.2.1 [7, 8] 2 4 rfl rfl⟩

/-- C6 amended: a worker that observes `Cancelled` at the chunk suspension
point stops transferring bytes — the partially written destination file is
left on disk, never appended to, deleted or truncated afterwards — and exits
its loop without dequeuing or marking any of the remaining queued tasks.
However, before exiting it still runs the tail of its task body: it applies
`shutil.copystat` metadata to the partial file, adds the partial byte count,
increments `completed_files` and marks the in-flight task done. -/
theorem C6_cancel_behavior (s : MState) (pending : List Nat) (copied total : Nat)
    (hc : s.cancelSet = true) (hpc : s.pc = .chunkTop pending copied total) :
    (∀ n, (copy_worker_step^[n] s).curDest = s.curDest)
  ∧ (copy_worker_step^[2] s).events =
      s.events ++ [.copystat, .incBytes copied, .incCompleted, .taskDone]
  ∧ (copy_worker_step^[2] s).copied_files = s.copied_files + 1
  ∧ (∀ n, (copy_worker_step^[n] s).queue = s.queue)
  ∧ (∀ n, (copy_worker_step^[n] s).events.count MEv.dequeue = s.events.count MEv.dequeue)
  ∧ (copy_worker_step^[3] s).pc = .exited
  ∧ (∀ m, copy_worker_step^[m + 3] s = copy_worker_step^[3] s) := by
  have e1 : copy_worker_step s = { s with pc := .finishTask copied } := by
    simp [copy_worker_step, hpc, hc]
  have e2 : copy_worker_step^[2] s =
      { s with pc := .loopTop, copied_files := s.copied_files + 1,
               total_bytes := s.total_bytes + copied, unfinished := s.unfinished - 1,
               events := s.events ++ [.copystat, .incBytes copied, .incCompleted, .taskDone] } := by
    show copy_worker_step (copy_worker_step s) = _
    rw [e1]
    simp [copy_worker_step]
  have e3 : copy_worker_step^[3] s =
      { s with pc := .exited, copied_files := s.copied_files + 1,
               total_bytes := s.total_bytes + copied, unfinished := s.unfinished - 1,
               events := s.events ++ [.copystat, .incBytes copied, .incCompleted, .taskDone] } := by
    rw [Function.iterate_succ_apply' copy_worker_step 2 s, e2]
    simp [copy_worker_step, hc]
  have efix : copy_worker_step (copy_worker_step^[3] s) = copy_worker_step^[3] s := by
    rw [e3]
    simp [copy_worker_step]
  have elate : ∀ m, copy_worker_step^[m + 3] s = copy_worker_step^[3] s := by
    intro m
    rw [Function.iterate_add_apply]
    exact Function.iterate_fixed efix m
  have hev : ∀ n, (copy_worker_step^[n] s).events = s.events ∨
      (copy_worker_step^[n] s).events =
        s.events ++ [.copystat, .incBytes copied, .incCompleted, .taskDone] := by
    intro n
    rcases n with _ | _ | _ | m
    · left; rfl
    · left
      show (copy_worker_step s).events = s.events
      rw [e1]
    · right
      rw [e2]
    · right
      rw [elate m, e3]
  refine ⟨?_, by rw [e2], by rw [e2], ?_, ?_, by rw [e3], elate⟩
  · intro n
    rcases n with _ | _ | _ | m
    · rfl
    · show (copy_worker_step s).curDest = s.curDest
      rw [e1]
    · rw [e2]
    · rw [elate m, e3]
  · intro n
    rcases n with _ | _ | _ | m
    · rfl
    · show (copy_worker_step s).queue = s.queue
      rw [e1]
    · rw [e2]
    · rw [elate m, e3]
  · intro n
    rcases hev n with h | h <;> rw [h]
    rw [List.count_append]
    have hz : List.count MEv.dequeue
        [MEv.copystat, MEv.incBytes copied, MEv.incCompleted, MEv.taskDone] = 0 := by
      simp [List.count_eq_zero]
    rw [hz, Nat.add_zero]

/-- C6 witness: for a concrete worker cancelled mid-task, the partial
destination bytes are untouched forever, the queued task is never dequeued,
and the worker has exited by the third step. -/
theorem C6_cancel_behavior_witness :
    (copy_worker_step^[5] cancelledMidTask).curDest = cancelledMidTask.curDest
  ∧ (copy_worker_step^[5] cancelledMidTask).queue = cancelledMidTask.queue
  ∧ (copy_worker_step^[3] cancelledMidTask).pc = .exited :=
  ⟨(C6_cancel_behavior cancelledMidTask [7, 8] 2 4 rfl rfl).1 5,
   (C6_cancel_behavior cancelledMidTask [7, 8] 2 4 rfl rfl).2.2.2.1 5,
   (C6_cancel_behavior cancelledMidTask [7, 8] 2 4 rfl rfl).2.2.2.2.2.1⟩

/-- C6 counterexample: the claim says the partially written destination file
receives no further metadata and the task is simply abandoned; but for a
worker that observes `Cancelled` mid-task (partial bytes `[5, 6]` on disk),
the code still emits `shutil.copystat` onto that partial file, still
increments `completed_files` and still marks the in-flight task done before
exiting. -/
theorem C6_counterexample :
    MEv.copystat ∈ (copy_worker_step^[2] cancelledMidTask).events
  ∧ MEv.taskDone ∈ (copy_worker_step^[2] cancelledMidTask).events
  ∧ (copy_worker_step^[2] cancelledMidTask).copied_files =
      cancelledMidTask.copied_files + 1
  ∧ (copy_worker_step^[2] cancelledMidTask).curDest = [5, 6] := by
  decide

/-- C7: the pseudo-GPU copy path of `copy-GPU-macOS.py` — identity compute
kernel when OpenCL is available, plain write of the read bytes otherwise or
on kernel failure — writes exactly the same destination bytes as the plain
4 MiB chunked buffered copy of `copy.py`, namely the source bytes; the two
copy-worker embeddings are observationally equivalent on the bytes written. -/
theorem C7_gpu_equivalence (ctxOk clCopyFails : Bool) (fileData : List Nat) :
    copy_worker_gpu_bytes ctxOk clCopyFails fileData =
      (copy_worker_task fileData).destContent
  ∧ (copy_worker_task fileData).destContent = fileData := by
  have hplain : (copy_worker_task fileData).destContent = fileData := by
    simp [copy_worker_task, chunkLoop_written]
  refine ⟨?_, hplain⟩
  rw [hplain]
  unfold copy_worker_gpu_bytes
  split
  · split
    · rfl
    · exact gpuKernelCopy_id fileData
  · rfl

/-- C8: one iteration of the destination monitor never writes the cancelled
flag; while not cancelled, an unreachable destination with the gate running
transitions the gate to paused, and a reachable destination with the gate
paused during an active run transitions it back to running. -/
theorem C8_monitor_gate (destReachable startDisabled : Bool) (s : MonState) :
    (monitor_destination_step destReachable startDisabled s).cancelSet = s.cancelSet
  ∧ (s.cancelSet = false → destReachable = false → s.pauseSet = true →
      (monitor_destination_step destReachable startDisabled s).pauseSet = false)
  ∧ (s.cancelSet = false → destReachable = true → s.pauseSet = false → startDisabled = true →
      (monitor_destination_step destReachable startDisabled s).pauseSet = true) := by
  rcases s with ⟨p, c⟩
  cases p <;> cases c <;> cases destReachable <;> cases startDisabled <;>
    simp [monitor_destination_step]

/-- C8 witness: the monitor pauses a running gate when the destination
disappears and resumes a paused gate when it returns mid-run, never touching
the cancelled flag. -/
theorem C8_monitor_gate_witness :
    (monitor_destination_step false true ⟨true, false⟩).pauseSet = false
  ∧ (monitor_destination_step true true ⟨false, false⟩).pauseSet = true
  ∧ (monitor_destination_step false true ⟨true, false⟩).cancelSet = false :=
  ⟨(C8_monitor_gate false true ⟨true, false⟩).2.1 rfl rfl rfl,
   (C8_monitor_gate true true ⟨false, false⟩).2.2 rfl rfl rfl rfl,
   (C8_monitor_gate false true ⟨true, false⟩).1⟩

/-- C9 counterexample: for a single-file source `home/f.txt` with destination
root `dst`, the claim says the file lands directly under the destination root
(at `dst/f.txt`); but `start_copy` first creates the directory
`DEST_DIR_FULL = dst/f.txt` named after the source's basename, and the
worker's computed destination path is `os.path.join` of that directory with
`os.path.relpath(SOURCE_DIR, SOURCE_DIR) = "."`, i.e. `dst/f.txt/.` — not a
file directly under the destination root. -/
theorem C9_counterexample :
    gpuDestFile ["dst"] ["home", "f.txt"] ["home", "f.txt"] = ["dst", "f.txt", "."]
  ∧ gpuDestFile ["dst"] ["home", "f.txt"] ["home", "f.txt"] ≠ ["dst", "f.txt"] := by
  decide

/-- C9 amended: in the GPU variant a directory source's file at relative path
`rel` lands at `destRoot/basename(source)/rel`; in the plain variant
(`copy.py`) it lands at `destRoot/rel` with no basename subfolder; and for a
single-file source the GPU variant computes `destRoot/basename/.` (the
pre-created directory itself), so the file does not land directly under the
destination root. -/
theorem C9_layout (destDir sourceDir rel : PathC) :
    (rel ≠ [] → gpuDestFile destDir sourceDir (sourceDir ++ rel) =
       destDir ++ [pyBasename sourceDir] ++ rel)
  ∧ (rel ≠ [] → plainDestFile destDir sourceDir (sourceDir ++ rel) = destDir ++ rel)
  ∧ gpuDestFile destDir sourceDir sourceDir = destDir ++ [pyBasename sourceDir, "."] := by
  have hrel : rel ≠ [] → relpathUnder (sourceDir ++ rel) sourceDir = rel := by
    intro h
    unfold relpathUnder
    rw [if_neg, List.drop_left]
    intro heq
    have hlen := congrArg List.length heq
    simp at hlen
    exact h hlen
  refine ⟨?_, ?_, ?_⟩
  · intro h
    unfold gpuDestFile destDirFull
    rw [hrel h, List.append_assoc]
  · intro h
    unfold plainDestFile
    rw [hrel h]
  · unfold gpuDestFile destDirFull relpathUnder
    rw [if_pos rfl]
    simp

/-- C9 witness: a directory-source file `pics/a/b.jpg` lands under
`dst/pics/a/b.jpg` in the GPU variant and under `dst/a/b.jpg` in the plain
variant. -/
theorem C9_layout_witness :
    gpuDestFile ["dst"] ["pics"] (["pics"] ++ ["a", "b.jpg"]) =
      ["dst"] ++ [pyBasename ["pics"]] ++ ["a", "b.jpg"]
  ∧ plainDestFile ["dst"] ["pics"] (["pics"] ++ ["a", "b.jpg"]) = ["dst"] ++ ["a", "b.jpg"] :=
  ⟨(C9_layout ["dst"] ["pics"] ["a", "b.jpg"]).1 (by decide),
   (C9_layout ["dst"] ["pics"] ["a", "b.jpg"]).2.1 (by decide)⟩

/-- C10 counterexample: at `copied_files = 1`, `start_time = 1`, `now = 1`
(so exactly one task has completed but elapsed time is zero), the ETA
division `elapsed / copied_files` is still evaluated — the tuple
`(etaDiv, 0, 1)` occurs in the division trace with numerator
`elapsed = 1 - 1 = 0` — so the claim's guard description "evaluated only
when ... elapsed time is nonzero" does not hold for the ETA division (its
divisor is `copied_files`, which is positive there, so no division by zero
occurs). -/
theorem C10_counterexample :
    (DivSite.etaDiv, (0 : ℚ), (1 : ℚ)) ∈ update_ui_divs 1 1 1 0 1 1
  ∧ ((1 : ℚ) - 1 = 0) := by
  constructor
  · norm_num [update_ui_divs]
  · norm_num

/-- C10 amended: every division `update_ui` evaluates has a nonzero divisor
and the computation is total (never hits a division-by-zero branch); percent
is reported as 0 when `total_files` is 0; the speed division (by elapsed) is
evaluated only when at least one task has completed and elapsed is nonzero;
the ETA division (by `completed_files`) is evaluated only when at least one
task has completed — it can be reached with elapsed zero, but its divisor is
then the positive `completed_files`.  The GPU variant's percent computation
is likewise total. -/
theorem C10_division_safety (current total copied : Nat) (bytes startT now : ℚ) :
    (∀ d ∈ update_ui_divs current total copied bytes startT now, d.2.2 ≠ 0)
  ∧ (update_ui_calc current total copied bytes startT now).isSome = true
  ∧ (total = 0 → ∀ sn, update_ui_calc current total copied bytes startT now = some sn →
       sn.percent = 0)
  ∧ (∀ a b, (DivSite.speedDiv, a, b) ∈ update_ui_divs current total copied bytes startT now →
       0 < copied ∧ b ≠ 0)
  ∧ (∀ a b, (DivSite.etaDiv, a, b) ∈ update_ui_divs current total copied bytes startT now →
       0 < copied ∧ b = (copied : ℚ))
  ∧ (gpu_update_ui_percent current total).isSome = true := by
  have hpercent : ∀ h : total ≠ 0, checkedDiv (current : ℚ) (total : ℚ) =
      some ((current : ℚ) / (total : ℚ)) := by
    intro h
    rw [checkedDiv, if_neg (Nat.cast_ne_zero.mpr h)]
  have hcop : 0 < copied → ((copied : ℚ) ≠ 0) := by
    intro h
    exact Nat.cast_ne_zero.mpr (Nat.pos_iff_ne_zero.mp h)
  refine ⟨?_, ?_, ?_, ?_, ?_, ?_⟩
  · intro d hd
    simp only [update_ui_divs] at hd
    by_cases h2 : 0 < copied ∧ startT ≠ 0
    · rw [if_pos h2] at hd
      rcases List.mem_append.mp hd with hd1 | hd2
      · rcases List.mem_append.mp hd1 with hp | he
        · by_cases h1 : total ≠ 0
          · rw [if_pos h1, List.mem_singleton] at hp
            subst hp
            exact Nat.cast_ne_zero.mpr h1
          · rw [if_neg h1] at hp
            cases hp
        · rw [List.mem_singleton] at he
          subst he
          exact hcop h2.1
      · by_cases h3 : (if startT ≠ 0 then now - startT else 0) ≠ 0
        · rw [if_pos h3, List.mem_singleton] at hd2
          subst hd2
          exact h3
        · rw [if_neg h3] at hd2
          cases hd2
    · rw [if_neg h2] at hd
      by_cases h1 : total ≠ 0
      · rw [if_pos h1, List.mem_singleton] at hd
        subst hd
        exact Nat.cast_ne_zero.mpr h1
      · rw [if_neg h1] at hd
        cases hd
  · by_cases h1 : total ≠ 0
    · by_cases h2 : 0 < copied ∧ startT ≠ 0
      · have h2c : copied ≠ 0 := Nat.pos_iff_ne_zero.mp h2.1
        by_cases h3 : now - startT = 0 <;>
          simp [update_ui_calc, checkedDiv, h1, h2, h2c, h3]
      · simp [update_ui_calc, checkedDiv, h1, h2]
    · by_cases h2 : 0 < copied ∧ startT ≠ 0
      · have h2c : copied ≠ 0 := Nat.pos_iff_ne_zero.mp h2.1
        by_cases h3 : now - startT = 0 <;>
          simp [update_ui_calc, checkedDiv, h1, h2, h2c, h3]
      · simp [update_ui_calc, checkedDiv, h1, h2]
  · intro h0 sn hsn
    have h1 : ¬ total ≠ 0 := by simpa using h0
    by_cases h2 : 0 < copied ∧ startT ≠ 0
    · have h2c : copied ≠ 0 := Nat.pos_iff_ne_zero.mp h2.1
      by_cases h3 : now - startT = 0 <;>
        simp [update_ui_calc, checkedDiv, h1, h2, h2c, h3] at hsn <;>
        (subst hsn; rfl)
    · simp [update_ui_calc, checkedDiv, h1, h2] at hsn
      subst hsn
      rfl
  · intro a b hab
    simp only [update_ui_divs] at hab
    by_cases h2 : 0 < copied ∧ startT ≠ 0
    · rw [if_pos h2] at hab
      rcases List.mem_append.mp hab with hd1 | hd2
      · rcases List.mem_append.mp hd1 with hp | he
        · by_cases h1 : total ≠ 0
          · rw [if_pos h1, List.mem_singleton] at hp
            cases hp
          · rw [if_neg h1] at hp
            cases hp
        · rw [List.mem_singleton] at he
          cases he
      · by_cases h3 : (if startT ≠ 0 then now - startT else 0) ≠ 0
        · rw [if_pos h3, List.mem_singleton] at hd2
          injection hd2 with h4 h5
          injection h5 with h5a h5b
          subst h5b
          exact ⟨h2.1, h3⟩
        · rw [if_neg h3] at hd2
          cases hd2
    · rw [if_neg h2] at hab
      by_cases h1 : total ≠ 0
      · rw [if_pos h1, List.mem_singleton] at hab
        cases hab
      · rw [if_neg h1] at hab
        cases hab
  · intro a b hab
    simp only [update_ui_divs] at hab
    by_cases h2 : 0 < copied ∧ startT ≠ 0
    · rw [if_pos h2] at hab
      rcases List.mem_append.mp hab with hd1 | hd2
      · rcases List.mem_append.mp hd1 with hp | he
        · by_cases h1 : total ≠ 0
          · rw [if_pos h1, List.mem_singleton] at hp
            cases hp
          · rw [if_neg h1] at hp
            cases hp
        · rw [List.mem_singleton] at he
          injection he with h4 h5
          injection h5 with h5a h5b
          subst h5b
          exact ⟨h2.1, rfl⟩
      · by_cases h3 : (if startT ≠ 0 then now - startT else 0) ≠ 0
        · rw [if_pos h3, List.mem_singleton] at hd2
          cases hd2
        · rw [if_neg h3] at hd2
          cases hd2
    · rw [if_neg h2] at hab
      by_cases h1 : total ≠ 0
      · rw [if_pos h1, List.mem_singleton] at hab
        cases hab
      · rw [if_neg h1] at hab
        cases hab
  · by_cases h1 : total ≠ 0 <;> simp [gpu_update_ui_percent, checkedDiv, h1]

/-- C10 witness: the amended theorem applied at `total_files = 0` (percent
reported as 0) and at concrete states for totality. -/
theorem C10_division_safety_witness :
    (⟨0, 1, some (-1), some 3⟩ : Snap).percent = 0
  ∧ (update_ui_calc 1 0 2 3 4 5).isSome = true
  ∧ (gpu_update_ui_percent 0 0).isSome = true := by
  refine ⟨?_, (C10_division_safety 1 0 2 3 4 5).2.1, (C10_division_safety 0 0 0 0 0 0).2.2.2.2.2⟩
  exact (C10_division_safety 1 0 2 3 4 5).2.2.1 rfl ⟨0, 1, some (-1), some 3⟩
    (by norm_num [update_ui_calc, checkedDiv])
